import Mathlib

/-!
Verification of the `rhangai/nest-modules` repository.

Two parts are modelled:

* the `node-validator` validation engine (`validateValue`, `validateValueAsync`,
  `ToString`, `ToEnum`, `IsObject`, class registrations with post-check hooks,
  `ValidateError`).  The engine's implementation files are not present in the
  repository snapshot (only the test suite `test/validators/object.spec.ts` is),
  so the engine is modelled from the specification, faithful to its words; the
  test suite's concrete classes, enums and inputs are reproduced as concrete
  values.

* the `nest-typeorm-util` `EntityService` (`entityManager`, `repository`),
  embedded directly from `src/entity/entity.service.ts`.

JavaScript values are embedded as the inductive `JsValue`; machine-level
concerns (references) are modelled with explicit identities where the code
depends on them (entity-manager identity, repository-instance identity, a heap
model for the immutability property).
-/

namespace NodeValidator

/-- Modelled from the spec: the JavaScript values the validation engine
receives.  Plain keyed-value structures are `vobj`; `vdate`, `vsym` and
`vdecimal` stand for `Date` instances, symbols and `Decimal` wrapper objects
(each carrying enough data to distinguish instances). -/
inductive JsValue where
  | vnull
  | vundefined
  | vint (n : Int)
  | vstr (s : String)
  | vbool (b : Bool)
  | vobj (fields : List (String × JsValue))
  | vdate (ms : Int)
  | vsym (id : Nat)
  | vdecimal (n : Int)

/-- Modelled from the spec: `ValidateError` carries a human-readable message. -/
structure ValidateError where
  message : String

/-- Modelled from the spec: a Rule is an atomic transformation/check applied to
one value, producing either a coerced value or a validation failure. -/
def Rule : Type := JsValue → Except ValidateError JsValue

/-- `true` when a rule result is a failure. -/
def failed (r : Except ValidateError JsValue) : Bool :=
  match r with
  | .error _ => true
  | .ok _ => false

/-- Modelled from the spec: `validateValue(value, rules)` applies the ordered
rule sequence to `value`; each rule receives the output of the previous one,
and the first failing rule aborts the chain with that rule's error. -/
def validateValue (value : JsValue) (rules : List Rule) : Except ValidateError JsValue :=
  match rules with
  | [] => .ok value
  | r :: rest =>
    match r value with
    | .error e => .error e
    | .ok value' => validateValue value' rest

/-- Modelled from the spec: `validateValueAsync` has the equivalent contract,
distinguished from `validateValue` only in calling convention. -/
def validateValueAsync (value : JsValue) (rules : List Rule) : Except ValidateError JsValue :=
  validateValue value rules

/-- Modelled from the spec: a permitted enum literal is numeric or string. -/
inductive EnumVal where
  | num (n : Int)
  | str (s : String)
deriving DecidableEq

/-- An enum-like mapping object, as it exists at runtime: the list of its
entries.  For a numeric TypeScript enum this includes the reverse-mapping
entries (numeric-string key mapping back to the member name). -/
def EnumLike : Type := List (String × EnumVal)

/-- `true` iff the string is the decimal form of an integer — the shape of
every reverse-mapping key of a numeric enum member, and never the shape of a
member name (TypeScript identifiers cannot start with a digit or a minus). -/
def isNumericKey (s : String) : Bool :=
  match s.data with
  | [] => false
  | c :: rest =>
    if c = '-' then !rest.isEmpty && rest.all (fun d => d.isDigit)
    else (c :: rest).all (fun d => d.isDigit)

/-- Modelled from the spec: the descriptor's permitted literal values are the
values of the enum object's member entries; reverse-mapping entries — whose
keys are numeric strings, which can never be member names — contribute none. -/
def enumPermittedValues (e : EnumLike) : List EnumVal :=
  (e.filter (fun p => !isNumericKey p.1)).map (fun p => p.2)

/-- JavaScript strict equality between a permitted enum literal and an input
value: value identity, never by symbolic name. -/
def evEq (ev : EnumVal) (v : JsValue) : Bool :=
  match ev, v with
  | .num n, .vint m => n == m
  | .str s, .vstr t => s == t
  | _, _ => false

/-- Modelled from the spec: `ToEnum(enumDescriptor)` succeeds iff the input
value strictly equals one of the descriptor's permitted values. -/
def ToEnum (e : EnumLike) : Rule := fun v =>
  if (enumPermittedValues e).any (fun ev => evEq ev v) then .ok v
  else .error ⟨"Invalid enum value"⟩

/-- Modelled from the spec: `ToString()` lets string primitives pass through
and fails on every value that is not a string primitive (the spec leaves other
primitive coercions implementation-defined; the strictest reading is used). -/
def ToString : Rule := fun v =>
  match v with
  | .vstr s => .ok (.vstr s)
  | _ => .error ⟨"Value is not a string"⟩

/-- `true` iff the value is a plain keyed-value structure. -/
def isPlainObject (v : JsValue) : Bool :=
  match v with
  | .vobj _ => true
  | _ => false

/-- Property access on an object's field list: a missing key reads as
`undefined`. -/
def lookupField (fields : List (String × JsValue)) (k : String) : JsValue :=
  match fields.find? (fun p => p.1 == k) with
  | some p => p.2
  | none => .vundefined

/-- Property access on a value (used by post-check hooks). -/
def getProp (v : JsValue) (k : String) : JsValue :=
  match v with
  | .vobj fields => lookupField fields k
  | _ => .vundefined

/-- Modelled from the spec: a Class Validator Registration maps a class
identity to an ordered list of Field Descriptors (property key bound to an
ordered rule sequence) plus an optional whole-object post-check hook, as
registered by the field decorators and `ClassValidate`. -/
structure ClassRegistration where
  fields : List (String × List Rule)
  postCheck : Option (JsValue → Except ValidateError JsValue)

/-- Modelled from the spec: validate each declared field independently against
its own rule chain; a single failing field fails the whole object; the result
keeps exactly the declared fields, in declaration order. -/
def validateFields (input : List (String × JsValue)) :
    List (String × List Rule) → Except ValidateError (List (String × JsValue))
  | [] => .ok []
  | (k, rs) :: rest => do
    let v ← validateValue (lookupField input k) rs
    let tail ← validateFields input rest
    .ok ((k, v) :: tail)

/-- Modelled from the spec: `IsObject(classFactory)` resolves the class's
registration (here: the `Option ClassRegistration` the factory's class resolves
to in the registry — `none` for a class with no registration); fails
immediately when there is no registration; rejects every input that is not a
plain keyed-value structure; validates each declared field, builds a new
result object containing only declared fields, then invokes the post-check
hook when one is registered. -/
def IsObject (reg : Option ClassRegistration) : Rule := fun v =>
  match reg with
  | none => .error ⟨"Class is not registered for validation"⟩
  | some r =>
    match v with
    | .vobj fields => do
      let out ← validateFields fields r.fields
      match r.postCheck with
      | none => .ok (.vobj out)
      | some hook => hook (.vobj out)
    | _ => .error ⟨"Value is not an object"⟩

/-! Concrete data of the test suite `test/validators/object.spec.ts`. -/

/-- The `ClassValidate` post-check hook of `BasicDto`: raises `ValidateError`
when `obj.name === "InvalidName"`, otherwise returns the object. -/
def basicDtoHook (obj : JsValue) : Except ValidateError JsValue :=
  match getProp obj "name" with
  | .vstr s => if s == "InvalidName" then .error ⟨"Invalid name"⟩ else .ok obj
  | _ => .ok obj

/-- The registration of `BasicDto`: one field `name` with rule chain
`[ToString]`, plus the `ClassValidate` post-check hook. -/
def basicDtoReg : ClassRegistration :=
  ⟨[("name", [ToString])], some basicDtoHook⟩

/-- The rule list `[IsObject(() => BasicDto)]` of the test suite. -/
def basicDtoRules : List Rule := [IsObject (some basicDtoReg)]

/-- The runtime object of the numeric enum `BasicEnum` with members
`SOMETHING = 0` and `OTHER = 1`, reverse-mapping entries included. -/
def basicEnumObj : EnumLike :=
  [("SOMETHING", .num 0), ("OTHER", .num 1),
   ("0", .str "SOMETHING"), ("1", .str "OTHER")]

/-- The runtime object of the mixed enum `MixedEnum` with members
`SOMETHING = 0` and `OTHER = "other-value"`: only the numeric member gets a
reverse-mapping entry. -/
def mixedEnumObj : EnumLike :=
  [("SOMETHING", .num 0), ("OTHER", .str "other-value"),
   ("0", .str "SOMETHING")]

/-! A heap model of the executor, for the no-in-place-mutation contract.
Values live in an addressed store; a rule receives the store and the address of
its input and returns the store and the address of its output.  A coercion
that "produces a new value" allocates at a fresh address and leaves every
existing cell untouched; an in-place mutation would overwrite an existing
cell. -/

/-- The addressed store of values: cell `i` of the list is address `i`. -/
abbrev Store : Type := List JsValue

/-- Modelled from the spec: a rule at the store level — it may read the store,
fail, or return a (possibly grown) store and a result address. -/
def StoreRule : Type := Store → Nat → Except ValidateError (Store × Nat)

/-- A store rule is allocation-only when every store it returns extends its
input store: existing cells are never overwritten, coercions only append new
values. -/
def AllocOnly (r : StoreRule) : Prop :=
  ∀ h a h' a', r h a = .ok (h', a') → ∃ t, h' = h ++ t

/-- Modelled from the spec: `validateValue` over the addressed store — the
same strictly sequential chain as `validateValue`. -/
def validateValueStore (h : Store) (a : Nat) :
    List StoreRule → Except ValidateError (Store × Nat)
  | [] => .ok (h, a)
  | r :: rest =>
    match r h a with
    | .error e => .error e
    | .ok (h', a') => validateValueStore h' a' rest

/-- Modelled from the spec: `validateValueAsync` over the addressed store is
the same chain. -/
def validateValueAsyncStore (h : Store) (a : Nat) (rules : List StoreRule) :
    Except ValidateError (Store × Nat) :=
  validateValueStore h a rules

/-- The store-level `ToString` rule: a string passes through by allocating a
fresh copy of the string value at the end of the store. -/
def toStringStore : StoreRule := fun h a =>
  match h[a]? with
  | some (.vstr s) => .ok (h ++ [.vstr s], h.length)
  | _ => .error ⟨"Value is not a string"⟩

/-! The executor as a state machine: `Pending`, one rule running at a time,
terminal `Done` or `Failed`.  `Exec value rules outcome` holds when a run of
the machine starting at `Pending` with `value` and `rules` reaches the given
terminal outcome. -/

/-- Modelled from the spec: the executor's state machine as a big-step
relation.  `done`: no rules left, terminal `Done` with the value.  `failOn`: the
running rule fails, terminal `Failed` with that rule's error.  `step`: the
running rule succeeds and the machine moves to the next rule with the coerced
value. -/
inductive Exec : JsValue → List Rule → Except ValidateError JsValue → Prop where
  | done (v : JsValue) : Exec v [] (.ok v)
  | failOn (v : JsValue) (r : Rule) (rest : List Rule) (e : ValidateError) :
      r v = .error e → Exec v (r :: rest) (.error e)
  | step (v v' : JsValue) (r : Rule) (rest : List Rule)
      (o : Except ValidateError JsValue) :
      r v = .ok v' → Exec v' rest o → Exec v (r :: rest) o

end NodeValidator

namespace NestTypeormUtil

/-- An entity manager, identified by reference identity (from
`src/packages/nest-typeorm-util/src/entity/entity.service.ts`). -/
structure EntityManager where
  id : Nat
deriving DecidableEq

/-- An `EntityServiceContext`: its `entityManager` member is optional
(`none` models a context without one, i.e. a falsy `context.entityManager`). -/
structure EntityServiceContext where
  entityManager : Option EntityManager

/-- The `EntityService`, holding the constructor-injected
`entityManagerInstance`. -/
structure EntityService where
  entityManagerInstance : EntityManager

/-- `EntityService.entityManager(context)`: when `!context?.entityManager`
(context null/undefined, or its `entityManager` member absent) return the
injected instance, otherwise return `context.entityManager`. -/
def EntityService.entityManager (svc : EntityService)
    (context : Option EntityServiceContext) : EntityManager :=
  match context with
  | none => svc.entityManagerInstance
  | some c =>
    match c.entityManager with
    | none => svc.entityManagerInstance
    | some em => em

/-- The same dispatch on a possibly-null injected instance, to state
nullability of the result: `inst` is the raw `this.entityManagerInstance`. -/
def entityManagerRaw (inst : Option EntityManager)
    (context : Option EntityServiceContext) : Option EntityManager :=
  match context with
  | none => inst
  | some c =>
    match c.entityManager with
    | none => inst
    | some em => some em

/-- A repository instance: the class it instantiates, the entity manager it
was constructed with, and a construction sequence number modelling reference
identity (two distinct `new RepositoryClass(...)` calls yield distinct
instances). -/
structure Repo where
  classId : Nat
  managerId : Nat
  ctorSeq : Nat
deriving DecidableEq

/-- The mutable state `EntityService.repository` works on: the
`REPOSITORY_STORAGE` maps attached to entity managers, flattened to a list of
(manager identity, repository class identity, instance) entries, plus the log
of constructor invocations as (manager identity, class identity) pairs. -/
structure RepoState where
  storage : List (Nat × Nat × Repo)
  ctorLog : List (Nat × Nat)

/-- Lookup in the per-manager repository storage (`storage.get(RepositoryClass)`
on the map attached to the manager with identity `mid`). -/
def storageGet : List (Nat × Nat × Repo) → Nat → Nat → Option Repo
  | [], _, _ => none
  | e :: rest, mid, cid =>
    if e.1 = mid ∧ e.2.1 = cid then some e.2.2 else storageGet rest mid cid

/-- `EntityService.repository(context, RepositoryClass)`: resolve the entity
manager from the context, look the class up in the manager's repository
storage, and on a miss construct the repository, store it and return it; on a
hit return the stored instance unchanged. -/
def EntityService.repository (svc : EntityService) (s : RepoState)
    (context : Option EntityServiceContext) (classId : Nat) : Repo × RepoState :=
  let em := svc.entityManager context
  match storageGet s.storage em.id classId with
  | some repo => (repo, s)
  | none =>
    let repo : Repo := ⟨classId, em.id, s.ctorLog.length⟩
    (repo, ⟨(em.id, classId, repo) :: s.storage, s.ctorLog ++ [(em.id, classId)]⟩)

/-- State invariant: every constructor invocation so far is for a pair that is
now present in storage, and no (manager, class) pair has been constructed
twice. -/
def RepoInv (s : RepoState) : Prop :=
  s.ctorLog.Nodup ∧ ∀ p ∈ s.ctorLog, (storageGet s.storage p.1 p.2).isSome = true

end NestTypeormUtil

namespace NodeValidator

/-- C1: `ToEnum(enumDescriptor)` accepts an input value iff it strictly equals
one of the enum's permitted literal values; for the numeric enum
`SOMETHING = 0, OTHER = 1` it accepts `0` and `1` and rejects `"SOMETHING"`,
`"OTHER"`, `2` and `-1`; for the mixed enum `SOMETHING = 0,
OTHER = "other-value"` it accepts `0` and `"other-value"` and rejects the same
four — member-name strings are never accepted even though the runtime enum
objects contain them as reverse-mapping values. -/
theorem toEnum_strict_value_membership :
    (∀ (e : EnumLike) (v : JsValue),
        (ToEnum e) v = .ok v
          ↔ (enumPermittedValues e).any (fun ev => evEq ev v) = true)
    ∧ (∀ (e : EnumLike) (v : JsValue),
        failed ((ToEnum e) v) = true
          ↔ (enumPermittedValues e).any (fun ev => evEq ev v) = false)
    ∧ validateValue (.vint 0) [ToEnum basicEnumObj] = .ok (.vint 0)
    ∧ validateValue (.vint 1) [ToEnum basicEnumObj] = .ok (.vint 1)
    ∧ failed (validateValue (.vstr "SOMETHING") [ToEnum basicEnumObj]) = true
    ∧ failed (validateValue (.vstr "OTHER") [ToEnum basicEnumObj]) = true
    ∧ failed (validateValue (.vint 2) [ToEnum basicEnumObj]) = true
    ∧ failed (validateValue (.vint (-1)) [ToEnum basicEnumObj]) = true
    ∧ validateValue (.vint 0) [ToEnum mixedEnumObj] = .ok (.vint 0)
    ∧ validateValue (.vstr "other-value") [ToEnum mixedEnumObj]
        = .ok (.vstr "other-value")
    ∧ failed (validateValueAsync (.vstr "SOMETHING") [ToEnum mixedEnumObj]) = true
    ∧ failed (validateValueAsync (.vstr "OTHER") [ToEnum mixedEnumObj]) = true
    ∧ failed (validateValueAsync (.vint 2) [ToEnum mixedEnumObj]) = true
    ∧ failed (validateValueAsync (.vint (-1)) [ToEnum mixedEnumObj]) = true := by
  refine ⟨?_, ?_, rfl, rfl, rfl, rfl, rfl, rfl, rfl, rfl, rfl, rfl, rfl, rfl⟩
  · intro e v
    unfold ToEnum
    constructor
    · intro h
      by_contra hc
      simp only [Bool.not_eq_true] at hc
      rw [if_neg (by simp [hc])] at h
      exact Except.noConfusion h
    · intro h
      rw [if_pos h]
  · intro e v
    unfold ToEnum
    constructor
    · intro h
      by_contra hc
      simp only [Bool.not_eq_false] at hc
      rw [if_pos hc] at h
      exact Bool.noConfusion (h ▸ rfl : failed (.ok v) = true)
    · intro h
      rw [if_neg (by simp [h])]
      rfl

/-- C2: `validateValue` with an `IsObject` rule fails on every input that is
not a plain keyed-value structure: null, undefined, a `Date` instance, a
symbol, a `Decimal` wrapper, and the bare strings `"test"` and `"201x"`. -/
theorem isObject_rejects_non_plain_objects :
    (∀ (r : ClassRegistration) (v : JsValue), isPlainObject v = false →
        failed ((IsObject (some r)) v) = true)
    ∧ failed (validateValue .vnull basicDtoRules) = true
    ∧ failed (validateValue .vundefined basicDtoRules) = true
    ∧ failed (validateValue (.vdate 0) basicDtoRules) = true
    ∧ failed (validateValue (.vsym 0) basicDtoRules) = true
    ∧ failed (validateValue (.vdecimal 100) basicDtoRules) = true
    ∧ failed (validateValue (.vstr "test") basicDtoRules) = true
    ∧ failed (validateValue (.vstr "201x") basicDtoRules) = true := by
  refine ⟨?_, rfl, rfl, rfl, rfl, rfl, rfl, rfl⟩
  intro r v h
  cases v <;> simp_all [isPlainObject, IsObject, failed]

/-- Witness for C2 at the concrete input `new Date(0)` against the `BasicDto`
registration. -/
theorem isObject_rejects_non_plain_objects_witness :
    isPlainObject (.vdate 0) = false
    ∧ failed ((IsObject (some basicDtoReg)) (.vdate 0)) = true :=
  ⟨rfl, isObject_rejects_non_plain_objects.1 basicDtoReg (.vdate 0) rfl⟩

/-- The keys of a successful field validation are exactly the declared field
keys, in declaration order. -/
theorem validateFields_keys (input : List (String × JsValue)) :
    ∀ (ds : List (String × List Rule)) (out : List (String × JsValue)),
      validateFields input ds = .ok out →
      out.map (fun p => p.1) = ds.map (fun p => p.1) := by
  intro ds
  induction ds with
  | nil =>
    intro out h
    simp only [validateFields] at h
    cases h
    rfl
  | cons d rest ih =>
    intro out h
    obtain ⟨k, rs⟩ := d
    simp only [validateFields, bind, Except.bind] at h
    cases hv : validateValue (lookupField input k) rs with
    | error e => rw [hv] at h; exact Except.noConfusion h
    | ok v =>
      rw [hv] at h
      cases ht : validateFields input rest with
      | error e => rw [ht] at h; exact Except.noConfusion h
      | ok tail =>
        rw [ht] at h
        cases h
        simp [ih tail ht]

/-- C3: `IsObject` builds the result from the declared fields only; validating
the test input with the undeclared `extra` key against `BasicDto` yields
exactly the object with the single `name` key, and in general (for a
registration without a post-check hook, which could transform the object) the
keys of the result are exactly the registered field keys, so undeclared input
properties are never copied. -/
theorem isObject_strips_undeclared_fields :
    validateValue (.vobj [("name", .vstr "name"), ("extra", .vstr "")])
        basicDtoRules
      = .ok (.vobj [("name", .vstr "name")])
    ∧ (∀ (r : ClassRegistration) (fields out : List (String × JsValue)),
        r.postCheck = none →
        (IsObject (some r)) (.vobj fields) = .ok (.vobj out) →
        out.map (fun p => p.1) = r.fields.map (fun p => p.1)) := by
  refine ⟨rfl, ?_⟩
  intro r fields out hpc h
  simp only [IsObject, bind, Except.bind, hpc] at h
  cases hv : validateFields fields r.fields with
  | error e => rw [hv] at h; exact Except.noConfusion h
  | ok built =>
    rw [hv] at h
    cases h
    exact validateFields_keys fields r.fields out hv

/-- Witness for C3 at a concrete post-check-free registration and the input
with an undeclared `extra` key. -/
theorem isObject_strips_undeclared_fields_witness :
    ([("name", JsValue.vstr "a")].map (fun p => p.1))
      = ([("name", ([ToString] : List Rule))].map (fun p => p.1)) :=
  isObject_strips_undeclared_fields.2 ⟨[("name", [ToString])], none⟩
    [("name", .vstr "a"), ("extra", .vstr "b")] [("name", .vstr "a")] rfl rfl

/-- C4: when a post-check hook is registered, `IsObject` hands the fully
field-validated object to the hook and returns exactly the hook's outcome —
so a hook that raises fails the whole validation; concretely, validating the
object with name `"InvalidName"` against `BasicDto` fails although the
field-level `ToString` rule alone accepts that string. -/
theorem isObject_post_check_enforced :
    (∀ (r : ClassRegistration) (hook : JsValue → Except ValidateError JsValue)
        (fields out : List (String × JsValue)),
        r.postCheck = some hook →
        validateFields fields r.fields = .ok out →
        (IsObject (some r)) (.vobj fields) = hook (.vobj out))
    ∧ failed (validateValue (.vobj [("name", .vstr "InvalidName")]) basicDtoRules)
        = true
    ∧ validateValue (.vstr "InvalidName") [ToString] = .ok (.vstr "InvalidName") := by
  refine ⟨?_, rfl, rfl⟩
  intro r hook fields out hpc hv
  simp only [IsObject, bind, Except.bind, hv, hpc]

/-- Witness for C4 at the `BasicDto` registration and the failing test
input. -/
theorem isObject_post_check_enforced_witness :
    (IsObject (some basicDtoReg)) (.vobj [("name", .vstr "InvalidName")])
      = basicDtoHook (.vobj [("name", .vstr "InvalidName")]) :=
  isObject_post_check_enforced.1 basicDtoReg basicDtoHook
    [("name", .vstr "InvalidName")] [("name", .vstr "InvalidName")] rfl rfl

/-- C6: rules run strictly sequentially — a rule that succeeds hands its
output to the rest of the chain — and the first failing rule aborts the whole
chain with that rule's error, whatever rules follow. -/
theorem validateValue_first_failure_aborts :
    (∀ (v v' : JsValue) (r : Rule) (rest : List Rule),
        r v = .ok v' →
        validateValue v (r :: rest) = validateValue v' rest)
    ∧ (∀ (v v1 : JsValue) (pre post : List Rule) (r : Rule) (e : ValidateError),
        validateValue v pre = .ok v1 → r v1 = .error e →
        validateValue v (pre ++ r :: post) = .error e) := by
  constructor
  · intro v v' r rest h
    simp only [validateValue, h]
  · intro v v1 pre
    induction pre generalizing v with
    | nil =>
      intro post r e hpre hr
      simp only [validateValue] at hpre
      cases hpre
      simp only [List.nil_append, validateValue, hr]
    | cons p rest ih =>
      intro post r e hpre hr
      simp only [validateValue] at hpre
      cases hp : p v with
      | error e' => rw [hp] at hpre; exact Except.noConfusion hpre
      | ok v2 =>
        rw [hp] at hpre
        simp only [List.cons_append, validateValue, hp]
        exact ih v2 post r e hpre hr

/-- Witness for C6: a chain whose second rule fails aborts with that rule's
error although a further rule follows. -/
theorem validateValue_first_failure_aborts_witness :
    validateValue (.vstr "x") ([ToString] ++ ToEnum basicEnumObj :: [ToString])
      = .error ⟨"Invalid enum value"⟩ :=
  validateValue_first_failure_aborts.2 (.vstr "x") (.vstr "x") [ToString]
    [ToString] (ToEnum basicEnumObj) ⟨"Invalid enum value"⟩ rfl rfl

/-- C7: neither `validateValue` nor `validateValueAsync` mutates the original
input: over the addressed store, as long as every rule in the chain only
allocates (the contract every coercion obeys — shown for the store-level
`ToString`), a successful run returns a store that extends the initial one,
so every pre-existing cell — the input among them — is unchanged;
`validateValueAsync` is the same chain. -/
theorem validateValue_no_input_mutation :
    (∀ (h : Store) (a : Nat) (rules : List StoreRule) (h' : Store) (a' : Nat),
        (∀ r ∈ rules, AllocOnly r) →
        validateValueStore h a rules = .ok (h', a') →
        (∃ t, h' = h ++ t) ∧ ∀ i, i < h.length → h'[i]? = h[i]?)
    ∧ (∀ (h : Store) (a : Nat) (rules : List StoreRule),
        validateValueAsyncStore h a rules = validateValueStore h a rules)
    ∧ AllocOnly toStringStore := by
  refine ⟨?_, fun _ _ _ => rfl, ?_⟩
  · intro h a rules
    induction rules generalizing h a with
    | nil =>
      intro h' a' _ hrun
      simp only [validateValueStore] at hrun
      cases hrun
      exact ⟨⟨[], by simp⟩, fun i _ => rfl⟩
    | cons r rest ih =>
      intro h' a' hall hrun
      simp only [validateValueStore] at hrun
      cases hr : r h a with
      | error e => rw [hr] at hrun; exact Except.noConfusion hrun
      | ok p =>
        obtain ⟨h1, a1⟩ := p
        rw [hr] at hrun
        obtain ⟨t1, ht1⟩ := hall r (List.mem_cons_self r rest) h a h1 a1 hr
        obtain ⟨⟨t2, ht2⟩, _⟩ :=
          ih h1 a1 h' a' (fun q hq => hall q (List.mem_cons_of_mem r hq)) hrun
        have hext : ∃ t, h' = h ++ t := ⟨t1 ++ t2, by rw [ht2, ht1, List.append_assoc]⟩
        refine ⟨hext, ?_⟩
        obtain ⟨t, ht⟩ := hext
        intro i hi
        rw [ht, List.getElem?_append_left hi]
  · intro h a h' a' hr
    unfold toStringStore at hr
    cases hv : h[a]? with
    | none => rw [hv] at hr; exact Except.noConfusion hr
    | some v =>
      rw [hv] at hr
      cases v <;> try exact Except.noConfusion hr
      next s =>
        cases hr
        exact ⟨[.vstr s], rfl⟩

/-- Witness for C7: running the store-level `ToString` chain on a store with a
single string cell leaves that cell unchanged and allocates the result at a
fresh address. -/
theorem validateValue_no_input_mutation_witness :
    (∃ t, [JsValue.vstr "s", JsValue.vstr "s"] = [JsValue.vstr "s"] ++ t)
    ∧ ∀ i, i < ([JsValue.vstr "s"] : Store).length →
        ([JsValue.vstr "s", JsValue.vstr "s"] : Store)[i]?
          = ([JsValue.vstr "s"] : Store)[i]? :=
  validateValue_no_input_mutation.1 [.vstr "s"] 0 [toStringStore]
    [.vstr "s", .vstr "s"] 1
    (fun r hr => by
      rw [List.mem_singleton] at hr
      rw [hr]
      exact validateValue_no_input_mutation.2.2)
    rfl

/-- C8: `validateValue` is deterministic — the executor's state machine always
reaches the outcome `validateValue` computes, and any two runs of the machine
on the same value and rule chain reach the same terminal outcome, so two calls
with the same input and the same rules produce equal outputs. -/
theorem validateValue_deterministic :
    (∀ (v : JsValue) (rules : List Rule), Exec v rules (validateValue v rules))
    ∧ (∀ (v : JsValue) (rules : List Rule) (o₁ o₂ : Except ValidateError JsValue),
        Exec v rules o₁ → Exec v rules o₂ → o₁ = o₂) := by
  constructor
  · intro v rules
    induction rules generalizing v with
    | nil => exact Exec.done v
    | cons r rest ih =>
      cases hr : r v with
      | error e =>
        have : validateValue v (r :: rest) = .error e := by
          simp only [validateValue, hr]
        rw [this]
        exact Exec.failOn v r rest e hr
      | ok v' =>
        have : validateValue v (r :: rest) = validateValue v' rest := by
          simp only [validateValue, hr]
        rw [this]
        exact Exec.step v v' r rest _ hr (ih v')
  · intro v rules o₁ o₂ d₁
    induction d₁ generalizing o₂ with
    | done v =>
      intro d₂
      cases d₂
      rfl
    | failOn v r rest e hr =>
      intro d₂
      cases d₂ with
      | failOn _ _ _ e' hr' =>
        rw [hr] at hr'
        cases hr'
        rfl
      | step _ v' _ _ _ hr' _ =>
        rw [hr] at hr'
        exact Except.noConfusion hr'
    | step v v' r rest o hr d ih =>
      intro d₂
      cases d₂ with
      | failOn _ _ _ e' hr' =>
        rw [hr] at hr'
        exact Except.noConfusion hr'
      | step _ v'' _ _ _ hr' d' =>
        rw [hr] at hr'
        cases hr'
        exact ih _ d'

/-- Witness for C8: the two derivations for the singleton `ToString` chain on
a concrete string agree, pinning the computed output. -/
theorem validateValue_deterministic_witness :
    validateValue (.vstr "x") [ToString] = .ok (.vstr "x") :=
  validateValue_deterministic.2 (.vstr "x") [ToString]
    (validateValue (.vstr "x") [ToString]) (.ok (.vstr "x"))
    (validateValue_deterministic.1 (.vstr "x") [ToString])
    (Exec.step (.vstr "x") (.vstr "x") ToString [] (.ok (.vstr "x")) rfl
      (Exec.done (.vstr "x")))

/-- C5: `IsObject` over a class with no registration fails on every input —
with one and the same error, so no field value of the input is ever examined —
and in particular fails on the empty object. -/
theorem isObject_unregistered_class_fails :
    (∀ v : JsValue,
        (IsObject none) v = .error ⟨"Class is not registered for validation"⟩)
    ∧ failed (validateValue (.vobj []) [IsObject none]) = true :=
  ⟨fun _ => rfl, rfl⟩

end NodeValidator

namespace NestTypeormUtil

/-- Adding a storage entry never makes an existing class lookup fail. -/
theorem storageGet_cons_isSome (e : Nat × Nat × Repo)
    (st : List (Nat × Nat × Repo)) (m c : Nat) :
    (storageGet st m c).isSome = true → (storageGet (e :: st) m c).isSome = true := by
  intro h
  simp only [storageGet]
  split
  · rfl
  · exact h

/-- C10: `EntityService.entityManager` returns the context's entity manager
when the context is present and carries one, falls back to the injected
instance when the context is absent or carries none, and (on the raw,
possibly-null field) never returns null when the injected instance is
non-null. -/
theorem entityManager_prefers_context :
    (∀ (svc : EntityService) (c : EntityServiceContext) (em : EntityManager),
        c.entityManager = some em → svc.entityManager (some c) = em)
    ∧ (∀ svc : EntityService, svc.entityManager none = svc.entityManagerInstance)
    ∧ (∀ (svc : EntityService) (c : EntityServiceContext),
        c.entityManager = none →
        svc.entityManager (some c) = svc.entityManagerInstance)
    ∧ (∀ (inst : Option EntityManager) (ctx : Option EntityServiceContext)
        (m : EntityManager), inst = some m →
        (entityManagerRaw inst ctx).isSome = true) := by
  refine ⟨?_, fun _ => rfl, ?_, ?_⟩
  · intro svc c em h
    simp [EntityService.entityManager, h]
  · intro svc c h
    simp [EntityService.entityManager, h]
  · intro inst ctx m h
    cases ctx with
    | none => simp [entityManagerRaw, h]
    | some c => cases hc : c.entityManager <;> simp [entityManagerRaw, h, hc]

/-- Witness for C10: a context carrying manager 7 wins over injected manager
0; a non-null injected instance yields a non-null result. -/
theorem entityManager_prefers_context_witness :
    (EntityService.mk ⟨0⟩).entityManager (some ⟨some ⟨7⟩⟩) = ⟨7⟩
    ∧ (entityManagerRaw (some ⟨0⟩) none).isSome = true :=
  ⟨entityManager_prefers_context.1 ⟨⟨0⟩⟩ ⟨some ⟨7⟩⟩ ⟨7⟩ rfl,
   entityManager_prefers_context.2.2.2 (some ⟨0⟩) none ⟨0⟩ rfl⟩

/-- C9: `EntityService.repository` memoizes per (entity manager, class): from
any state where no pair has been constructed twice, a call preserves that
invariant, and a second call through any context resolving to the same entity
manager with the same class returns the very same repository instance and
leaves the state unchanged — so the constructor runs at most once per pair. -/
theorem repository_memoized_per_class :
    ∀ (svc : EntityService) (s : RepoState)
      (ctx₁ ctx₂ : Option EntityServiceContext) (cid : Nat),
      RepoInv s →
      svc.entityManager ctx₁ = svc.entityManager ctx₂ →
      RepoInv (svc.repository s ctx₁ cid).2
      ∧ svc.repository (svc.repository s ctx₁ cid).2 ctx₂ cid
          = ((svc.repository s ctx₁ cid).1, (svc.repository s ctx₁ cid).2) := by
  intro svc s ctx₁ ctx₂ cid hinv hem
  simp only [EntityService.repository, ← hem]
  cases hget : storageGet s.storage (svc.entityManager ctx₁).id cid with
  | some repo =>
    simp only [hget]
    exact ⟨hinv, trivial⟩
  | none =>
    simp only [hget]
    have hkey : storageGet
        (((svc.entityManager ctx₁).id, cid,
            (⟨cid, (svc.entityManager ctx₁).id, s.ctorLog.length⟩ : Repo))
          :: s.storage)
        (svc.entityManager ctx₁).id cid
        = some ⟨cid, (svc.entityManager ctx₁).id, s.ctorLog.length⟩ := by
      simp [storageGet]
    have hnotin : ((svc.entityManager ctx₁).id, cid) ∉ s.ctorLog := by
      intro hmem
      have := hinv.2 _ hmem
      rw [hget] at this
      exact Bool.noConfusion this
    refine ⟨⟨?_, ?_⟩, ?_⟩
    · simpa using List.Nodup.append hinv.1 (List.nodup_singleton _)
        (by simpa [List.disjoint_singleton] using hnotin)
    · intro p hp
      rcases List.mem_append.1 hp with hp | hp
      · exact storageGet_cons_isSome _ _ _ _ (hinv.2 p hp)
      · rw [List.mem_singleton.1 hp, hkey]
        rfl
    · simp only [hkey]

/-- Witness for C9: from the empty state, a repeated lookup of class 5
through the injected manager returns the cached instance unchanged. -/
theorem repository_memoized_per_class_witness :
    RepoInv ((EntityService.mk ⟨0⟩).repository ⟨[], []⟩ none 5).2
    ∧ (EntityService.mk ⟨0⟩).repository
        ((EntityService.mk ⟨0⟩).repository ⟨[], []⟩ none 5).2 none 5
      = (((EntityService.mk ⟨0⟩).repository ⟨[], []⟩ none 5).1,
         ((EntityService.mk ⟨0⟩).repository ⟨[], []⟩ none 5).2) :=
  repository_memoized_per_class ⟨⟨0⟩⟩ ⟨[], []⟩ none none 5
    ⟨List.nodup_nil, fun p hp => absurd hp (List.not_mem_nil p)⟩ rfl

end NestTypeormUtil
